import Mathlib

/-
  Verification development for the scikit-digital-health activity/sleep core.

  Shallow embedding of:
  - get_activity_bouts            (src/skdh/activity/endpoints.py)
  - MaxAcceleration.predict       (src/skdh/activity/endpoints.py)
  - IntensityGradient.reset_cached / FragmentationEndpoints.reset_cached
                                  (src/skdh/activity/endpoints.py)
  - Sleep.predict day loop        (src/skimu/sleep/sleep.py)

  Real numbers from the Python floats are modelled as rationals.  External
  collaborators (moving_mean, downsampling, TSO detection, datetime
  formatting, the per-day sleep metric computations) are not part of the
  shown sources; they are modelled from the spec, either as explicit
  definitions or as parameters of the model.
-/

namespace Skdh

/-- Python slice sum: sum of x from index s (inclusive) to e (exclusive),
    with numpy slice clamping at the ends. -/
def sumRange (x : List ℕ) (s e : ℕ) : ℕ :=
  ((x.drop s).take (e - s)).sum

/-- numpy max over a list of naturals; every call site below passes a
    nonempty list, so the default 0 for the empty list is never observed. -/
def listMaxN (l : List ℕ) : ℕ :=
  l.foldr max 0

/-- Binary intensity mask: ((accm >= lower) & (accm < upper)).astype(int). -/
def intensityMask (accm : List ℚ) (lower upper : ℚ) : List ℕ :=
  accm.map (fun a => if lower ≤ a ∧ a < upper then 1 else 0)

/-- Indices of the nonzero entries of x, in increasing order: nonzero(x)[0]. -/
def nonzeroIdx (x : List ℕ) : List ℕ :=
  (List.range x.length).filter (fun j => decide (x.getD j 0 ≠ 0))

/-- The inner while loop of bout metric 1: extend the window end one epoch
    at a time while the qualifying count over the grown window stays above
    the fraction criterion and the end has not reached the sequence end.
    The fuel argument only bounds the number of iterations; the Python loop
    performs at most x.length - e iterations because every iteration
    increments e and the guard requires e < x.length, so any fuel of at
    least x.length + 1 is never exhausted from the call site below. -/
def extendEnd (x : List ℕ) (crit : ℚ) (start : ℕ) : ℕ → ℕ → ℕ
  | e, 0 => e
  | e, fuel+1 =>
    if (sumRange x start (e+1) : ℚ) > ((e + 1 - start : ℕ) : ℚ) * crit ∧ e < x.length
    then extendEnd x crit start (e+1) fuel
    else e

/-- The scan loop of bout metric 1 over the qualifying indices p.  The fuel
    argument only bounds iterations: each iteration advances i by at least 1
    and the loop stops when i reaches p.length, so p.length + 1 fuel (used
    at the call site) is never exhausted. -/
def m1Loop (x p : List ℕ) (W : ℕ) (crit : ℚ) (closed : Bool) (wlen : ℕ) :
    ℕ → ℚ → ℕ → ℚ
  | _, time, 0 => time
  | i, time, fuel+1 =>
    if i < p.length then
      let start := p.getD i 0
      if start + W < x.length then
        if (sumRange x start (start + W) : ℚ) > (W : ℚ) * crit then
          let e := extendEnd x crit start (start + W) (x.length + 1)
          let select := (p.drop i).filter (fun q => decide (q < e))
          let jump := max select.length 1
          let time' :=
            if closed then
              time + (((listMaxN (p.filter (fun q => decide (q < e))) : ℤ)
                        - (start : ℤ) + 1 : ℤ) : ℚ) * ((wlen : ℚ) / 60)
            else
              time + (select.length : ℚ) * ((wlen : ℚ) / 60)
          m1Loop x p W crit closed wlen (i + jump) time' fuel
        else m1Loop x p W crit closed wlen (i + 1) time fuel
      else m1Loop x p W crit closed wlen (i + 1) time fuel
    else time

/-- numpy assignment xt[s:e] = v (s, e already within bounds at call sites). -/
def setRange (l : List ℕ) (s e v : ℕ) : List ℕ :=
  l.mapIdx (fun j a => if s ≤ j ∧ j < e then v else a)

/-- The scan loop of bout metric 2.  State is the (mutated) mask x and the
    overlay xt.  Fuel as in m1Loop: the loop advances i by exactly 1 per
    iteration, so p.length + 1 fuel is never exhausted from the call site. -/
def m2Loop (p : List ℕ) (W : ℕ) (crit : ℚ) :
    ℕ → List ℕ → List ℕ → ℕ → (List ℕ × List ℕ)
  | _, x, xt, 0 => (x, xt)
  | i, x, xt, fuel+1 =>
    if i < p.length then
      let start := p.getD i 0
      if start + W < x.length then
        if (sumRange x start (start + W) : ℚ) > (W : ℚ) * crit
        then m2Loop p W crit (i + 1) x (setRange xt start (start + W) 2) fuel
        else m2Loop p W crit (i + 1) (x.set start 0) xt fuel
      else
        if 1 < p.length ∧ 2 < i
        then m2Loop p W crit (i + 1)
               (x.set (p.getD i 0) (x.getD (p.getD (i - 1) 0) 0)) xt fuel
        else m2Loop p W crit (i + 1) x xt fuel
    else (x, xt)

/-- Moving mean with stride 1 over windows of length w (the list of window
    means, defined when the guard of moving_mean holds). -/
def mmList (x : List ℚ) (w : ℕ) : List ℚ :=
  (List.range (x.length - w + 1)).map (fun i => ((x.drop i).take w).sum / (w : ℚ))

/-- Modelled from the spec: the external utility moving_mean(sequence, w, 1)
    from skdh.utility, whose source is not shown.  Per the spec contract it
    raises (here: none) if the window length exceeds the sequence length;
    a non-positive window is likewise unusable. -/
def moving_mean (x : List ℚ) (w : ℕ) : Option (List ℚ) :=
  if 1 ≤ w ∧ w ≤ x.length then some (mmList x w) else none

/-- Bout metrics 3 and 4 (metric 4 additionally requires the first and last
    epoch of each accepted window to qualify).  none models an uncaught
    ValueError; the second moving_mean call is wrapped in try/except in the
    source and degrades to 0.0, the first is not. -/
def m34core (accm : List ℚ) (lower upper : ℚ) (wlen W : ℕ) (crit : ℚ)
    (requireEnds : Bool) : Option ℚ :=
  let x := intensityMask accm lower upper
  let n := x.length
  let N := 60 / wlen + 1
  match moving_mean (x.map (fun v : ℕ => (v : ℚ))) N with
  | none => none
  | some mm =>
    let i1 := (N + 1) / 2 - 1
    let i2 := (((n : ℚ) - (N : ℚ) / 2).ceil).toNat
    let lookforbreaks : List ℚ :=
      (List.range n).map (fun j => if i1 ≤ j ∧ j < i2 then mm.getD (j - i1) 0 else 0)
    let penalty : ℚ := -((60 : ℚ) / (wlen : ℚ)) * (W : ℚ)
    let xt : List ℚ :=
      (List.range n).map (fun j =>
        if lookforbreaks.getD j 1 = 0 then penalty else ((x.getD j 0 : ℕ) : ℚ))
    match moving_mean xt W with
    | none => some 0
    | some rm =>
      let p0 := (List.range rm.length).filter (fun j => decide (rm.getD j 0 > crit))
      let p :=
        if requireEnds then
          p0.filter (fun j => decide (x.getD j 0 = 1 ∧ x.getD (j + W - 1) 0 = 1))
        else p0
      let xfin : List ℕ :=
        (List.range n).map (fun j =>
          if p.any (fun i => decide (i ≤ j ∧ j < i + W)) then 1 else 0)
      some ((xfin.sum : ℚ) * ((wlen : ℚ) / 60))

/-- get_activity_bouts from src/skdh/activity/endpoints.py.  Returns none
    where the Python function raises (ValueError for a bout metric outside
    1..4, or an uncaught error from a collaborator). -/
def get_activity_bouts (accm : List ℚ) (lower upper : ℚ) (wlen boutdur : ℕ)
    (crit : ℚ) (closedbout : Bool) (metric : ℕ) : Option ℚ :=
  let nboutdur := (((boutdur : ℚ) * ((60 : ℚ) / (wlen : ℚ))).floor).toNat
  if accm.length < nboutdur then some 0
  else if metric = 1 then
    let x := intensityMask accm lower upper
    let p := nonzeroIdx x
    some (m1Loop x p nboutdur crit closedbout wlen 0 0 (p.length + 1))
  else if metric = 2 then
    let x := intensityMask accm lower upper
    let p := nonzeroIdx x
    let r := m2Loop p nboutdur crit 0 x (List.replicate x.length 0) (p.length + 1)
    let xf := List.zipWith (fun a b => if b = 2 then 1 else a) r.1 r.2
    some ((xf.sum : ℚ) * ((wlen : ℚ) / 60))
  else if metric = 3 then m34core accm lower upper wlen nboutdur crit false
  else if metric = 4 then m34core accm lower upper wlen nboutdur crit true
  else none

/-- The 12-epoch input of the end-to-end scenarios: all epochs qualify
    except epochs 5 and 6 (0-indexed). -/
def gapInput : List ℚ := [1, 1, 1, 1, 1, 0, 0, 1, 1, 1, 1, 1]

/-- The 12-epoch fully qualifying input of the end-to-end scenarios. -/
def onesInput : List ℚ := [1, 1, 1, 1, 1, 1, 1, 1, 1, 1, 1, 1]

/-- numpy max over a list of rationals; every call site below passes a
    nonempty list, so the 0 default for the empty list is never observed. -/
def qmax : List ℚ → ℚ
  | [] => 0
  | a :: t => t.foldl max a

/-- results[name][i] = nanmax([tmp_max, results[name][i]]): none models the
    nan a result slot is initialized with, which nanmax ignores. -/
def nanmaxMerge (tmp : ℚ) (slot : Option ℚ) : Option ℚ :=
  some (match slot with
    | none => tmp
    | some p => max tmp p)

/-- MaxAcceleration.predict from src/skdh/activity/endpoints.py for one
    call, acting on the configured window lengths (in minutes) paired with
    their current result slots for the day.  For each window length w the
    code takes the maximum of the stride-1 moving mean over n = w *
    epochs_per_minute epochs and merges it into the slot with nanmax; a
    ValueError from moving_mean makes predict return immediately, leaving
    that slot and all later slots untouched. -/
def maxAccPredict (epm : ℕ) (metric : List ℚ) :
    List (ℕ × Option ℚ) → List (Option ℚ)
  | [] => []
  | (w, s) :: rest =>
    match moving_mean metric (w * epm) with
    | none => s :: rest.map Prod.snd
    | some mm => nanmaxMerge (qmax mm) s :: maxAccPredict epm metric rest

/-- One ingest call of the max-value endpoint for a single window length. -/
def maxAccIngest (metric : List ℚ) (epm w : ℕ) (slot : Option ℚ) : Option ℚ :=
  (maxAccPredict epm metric [(w, slot)]).headD none

/-- Histogram bin edges of the intensity gradient: 0 to 4.0 in steps of
    0.025 (in g), plus the open-ended top edge at 8.0. -/
def igLevels : List ℚ :=
  ((List.range 161).map (fun i => (25 * (i : ℚ)) / 1000)) ++ [8]

/-- Histogram bin midpoints, (ig_levels[1:] + ig_levels[:-1]) / 2. -/
def igVals : List ℚ :=
  List.zipWith (fun a b => (a + b) / 2) igLevels.tail igLevels

/-- State cached on an IntensityGradient instance between predict calls
    and reset_cached: the accumulated histogram, the three recorded result
    array references (modelled by presence markers) and the day index, all
    absent on a fresh instance. -/
structure IGState where
  hist : List ℚ
  ig : Option Unit
  igInt : Option Unit
  igR : Option Unit
  i : Option ℕ
deriving DecidableEq

/-- The three result columns an IntensityGradient instance writes; a cell
    is none until written (the nan sentinel the table is initialized with). -/
structure IGTable where
  ig : List (Option ℚ)
  igInt : List (Option ℚ)
  igR : List (Option ℚ)
deriving DecidableEq

/-- A freshly constructed IntensityGradient: zero histogram, no recorded
    pointers, no day index. -/
def IGState.fresh : IGState :=
  ⟨List.replicate igVals.length 0, none, none, none, none⟩

/-- IntensityGradient.reset_cached from src/skdh/activity/endpoints.py.
    Python writes through the stored array references; here the table is
    passed and returned explicitly.  The log-log regression over the
    nonzero histogram bins (slope, intercept, r squared via scipy
    linregress, all nan when at most one bin is nonzero) involves real
    logarithms, so it is abstracted as the regress parameter and the
    claims below hold for every such function.  When all four recorded
    values are present the three results are written at the recorded day
    index; in every case the histogram, the pointers and the day index
    are reset to their fresh values. -/
def IGState.reset_cached (regress : List ℚ → Option ℚ × Option ℚ × Option ℚ)
    (st : IGState) (tbl : IGTable) : IGState × IGTable :=
  let tbl' :=
    match st.ig, st.igInt, st.igR, st.i with
    | some _, some _, some _, some idx =>
      let r := regress st.hist
      ⟨tbl.ig.set idx r.1, tbl.igInt.set idx r.2.1, tbl.igR.set idx r.2.2⟩
    | _, _, _, _ => tbl
  (IGState.fresh, tbl')

/-- State cached on a FragmentationEndpoints instance: the accumulated
    run lengths, the five recorded result array references and the day
    index, all absent on a fresh instance. -/
structure FEState where
  lens : List ℕ
  rAd : Option Unit
  rTp : Option Unit
  rGi : Option Unit
  rAh : Option Unit
  rPld : Option Unit
  i : Option ℕ
deriving DecidableEq

/-- The five result columns a FragmentationEndpoints instance writes. -/
structure FETable where
  ad : List (Option ℚ)
  tp : List (Option ℚ)
  gi : List (Option ℚ)
  ah : List (Option ℚ)
  pld : List (Option ℚ)
deriving DecidableEq

/-- A freshly constructed FragmentationEndpoints instance. -/
def FEState.fresh : FEState := ⟨[], none, none, none, none, none, none⟩

/-- FragmentationEndpoints.reset_cached from
    src/skdh/activity/endpoints.py.  The five fragmentation statistics
    (average duration, transition probability, gini index, average
    hazard, power law distribution) come from the external
    skdh.utility.fragmentation_endpoints module, whose source is not
    shown; they are abstracted as the stats parameter and the claims
    below hold for every such function.  When all six recorded values
    are present the five results are written at the recorded day index;
    in every case the run lengths, the pointers and the day index are
    reset. -/
def FEState.reset_cached
    (stats : List ℕ → Option ℚ × Option ℚ × Option ℚ × Option ℚ × Option ℚ)
    (st : FEState) (tbl : FETable) : FEState × FETable :=
  let tbl' :=
    match st.rAd, st.rTp, st.rGi, st.rAh, st.rPld, st.i with
    | some _, some _, some _, some _, some _, some idx =>
      let r := stats st.lens
      ⟨tbl.ad.set idx r.1, tbl.tp.set idx r.2.1, tbl.gi.set idx r.2.2.1,
       tbl.ah.set idx r.2.2.2.1, tbl.pld.set idx r.2.2.2.2⟩
    | _, _, _, _, _, _ => tbl
  (FEState.fresh, tbl')

/-- One row of the per-day sleep results table of Sleep.predict.  none
    models the nan sentinel every field is initialized with when the row
    is appended. -/
structure SleepRow where
  dayN : Option ℕ
  date : Option String
  tsoTimestamp : Option ℚ
  tsoStart : Option String
  tsoDuration : Option ℚ
  metrics : List (Option ℚ)
deriving DecidableEq

/-- Modelled from the spec: the external collaborators Sleep.predict calls
    and whose sources are not shown: apply_downsample (goal fs, time,
    accel, day indices, wear indices to their downsampled versions),
    get_day_wear_intersection, get_total_sleep_opportunity (receiving the
    goal sampling value, possibly nan, and returning the TSO start
    timestamp and the start/stop sample indices, or none when no window is
    detected), the datetime formatting of the day date from the timestamp
    read 50 samples past the day start (including the hour-based
    previous-day adjustment) and of the TSO start, and the registered
    per-day sleep metric computations (activity index, sleep
    classification, run length encoding and the endpoint values, collapsed
    into one per-day value list).  The acceleration signal is abstracted
    to one value per sample.  All are parameters of the model and the
    claims hold for every instantiation. -/
structure SleepExternal where
  applyDownsample : ℚ → List ℚ → List ℚ → List (ℕ × ℕ) → List (ℕ × ℕ)
    → List ℚ × List ℚ × List (ℕ × ℕ) × List (ℕ × ℕ)
  dayWear : List (ℕ × ℕ) → ℕ → ℕ → List ℕ × List ℕ
  tso : Option ℚ → List ℚ → List ℚ → List ℕ → List ℕ → Option (ℚ × ℕ × ℕ)
  dateOf : ℚ → String
  tsoStartStr : ℚ → String
  dayMetrics : ℕ → List ℚ
  nMetrics : ℕ

/-- The configuration fields of a Sleep instance that predict reads. -/
structure SleepConfig where
  minDayHours : ℚ
  minWearTime : ℚ
  downsample : Bool
  dayKey : ℤ × ℤ
deriving DecidableEq

/-- numpy diff: consecutive differences of a sequence. -/
def diffList (l : List ℚ) : List ℚ :=
  List.zipWith (fun a b => a - b) l.tail l

/-- mean(diff(time[:5000])): the value assigned to fs when it is None.
    With fewer than two timestamps the difference array is empty and numpy
    mean returns nan, modelled as none. -/
def meanDiff5000 (time : List ℚ) : Option ℚ :=
  if (diffList (time.take 5000)).length = 0 then none
  else some ((diffList (time.take 5000)).sum
    / ((diffList (time.take 5000)).length : ℚ))

/-- The all-sentinel row appended for a day that passes the minimum-hours
    check: day number is filled immediately and the date is formatted from
    ts, the timestamp read 50 samples past the day start; every other
    field still holds the nan sentinel. -/
def sentinelRow (ext : SleepExternal) (iday : ℕ) (ts : ℚ) : SleepRow :=
  ⟨some (iday + 1), some (ext.dateOf ts), none, none, none,
   List.replicate ext.nMetrics none⟩

/-- One iteration of the day loop of Sleep.predict from
    src/skimu/sleep/sleep.py.  goalFs is none when goal_fs is the nan that
    an fs inferred from fewer than two timestamps produces (possible only
    with downsampling disabled); Python comparisons against nan are false,
    so such a day is never skipped.  Outcomes: ok none when the day is
    rejected before its row is appended (too few hours); error when shown
    source raises: reading time_ds at index start + 50 for the date
    (sleep.py line 287) is out of bounds, or the minute conversion
    int(tso_index / int(60 * goal_fs)) (line 333) fails because goal_fs is
    nan (ValueError) or int(60 * goal_fs) is 0 (ZeroDivisionError, exactly
    when -1 < 60 * goal_fs < 1); ok (some row) otherwise, where a day
    rejected after the append (too little wear, or no TSO window) keeps
    its all-sentinel row. -/
def processDay (ext : SleepExternal) (cfg : SleepConfig) (goalFs : Option ℚ)
    (time accel : List ℚ) (wear : List (ℕ × ℕ)) (iday : ℕ) (d : ℕ × ℕ) :
    Except String (Option SleepRow) :=
  if (match goalFs with
      | some g => decide (((((d.2 : ℤ) - (d.1 : ℤ) : ℤ) : ℚ))
          / (3600 * g) < cfg.minDayHours)
      | none => false)
  then Except.ok none
  else
    match time[d.1 + 50]? with
    | none => Except.error "IndexError: index start + 50 is out of bounds for the time array"
    | some ts =>
      let row := sentinelRow ext iday ts
      let dw := ext.dayWear wear d.1 d.2
      if (match goalFs with
          | some g => decide ((((List.zipWith (fun a b => (a : ℤ) - (b : ℤ))
              dw.2 dw.1).sum : ℤ) : ℚ) / (3600 * g) < cfg.minWearTime)
          | none => false)
      then Except.ok (some row)
      else
        match ext.tso goalFs ((time.drop d.1).take (d.2 - d.1))
            ((accel.drop d.1).take (d.2 - d.1)) dw.1 dw.2 with
        | none => Except.ok (some row)
        | some (t0, i2, i3) =>
          match goalFs with
          | none => Except.error "ValueError: cannot convert nan goal frequency to integer in the minute conversion"
          | some g =>
            if -1 < (60 : ℚ) * g ∧ (60 : ℚ) * g < 1 then
              Except.error "ZeroDivisionError: int of 60 times the goal frequency is 0 in the minute conversion"
            else
              Except.ok (some { row with
                tsoTimestamp := some t0
                tsoStart := some (ext.tsoStartStr t0)
                tsoDuration := some (((((i3 : ℤ) - (i2 : ℤ) : ℤ) : ℚ))
                  / (g * 60))
                metrics := (ext.dayMetrics iday).map some })

/-- The sequential day loop of Sleep.predict: an error raised while
    processing a day aborts the whole call (the rows accumulated so far
    are lost); otherwise the kept rows are collected in day order. -/
def sleepDayLoop (ext : SleepExternal) (cfg : SleepConfig)
    (goalFs : Option ℚ) (time accel : List ℚ) (wear : List (ℕ × ℕ)) :
    List (ℕ × (ℕ × ℕ)) → Except String (List SleepRow)
  | [] => Except.ok []
  | p :: rest =>
    match processDay ext cfg goalFs time accel wear p.1 p.2 with
    | Except.error e => Except.error e
    | Except.ok none => sleepDayLoop ext cfg goalFs time accel wear rest
    | Except.ok (some row) =>
      match sleepDayLoop ext cfg goalFs time accel wear rest with
      | Except.error e => Except.error e
      | Except.ok rows => Except.ok (row :: rows)

/-- The observable output of Sleep.predict: the per-day rows of the sleep
    results table and the fs value placed back into kwargs (none models
    the nan of a failed inference). -/
structure SleepOutput where
  rows : List SleepRow
  fs : Option ℚ
deriving DecidableEq

/-- Pairs a day-loop outcome with the fs value predict returns: an error
    propagates, otherwise the rows and fs form the output. -/
def withFs (fs : Option ℚ) : Except String (List SleepRow)
    → Except String SleepOutput
  | Except.error e => Except.error e
  | Except.ok rows => Except.ok ⟨rows, fs⟩

/-- Sleep.predict from src/skimu/sleep/sleep.py (plotting omitted: the
    plot calls render only, behind an is-not-None guard on state the
    external base class initializes).  fs falls back to the mean of the
    consecutive differences of the first 5000 timestamps (nan when fewer
    than two); a missing entry for the configured (base, period) day
    window raises ValueError; missing wear defaults to one block covering
    the whole recording; if fs is not exactly 20 (true for nan) and
    downsampling is enabled, the day loop runs on the downsampled data
    with goal_fs = 20, otherwise on the original data with goal_fs = fs. -/
def sleepPredict (ext : SleepExternal) (cfg : SleepConfig)
    (time accel : List ℚ) (fsIn : Option ℚ) (wearIn : Option (List (ℕ × ℕ)))
    (dayEnds : List ((ℤ × ℤ) × List (ℕ × ℕ))) : Except String SleepOutput :=
  let fs : Option ℚ :=
    match fsIn with
    | some f => some f
    | none => meanDiff5000 time
  match List.lookup cfg.dayKey dayEnds with
  | none => Except.error "Day indices for (base, period) day window not found."
  | some days =>
    let wear := wearIn.getD [(0, time.length)]
    if fs ≠ some 20 ∧ cfg.downsample then
      let dsr := ext.applyDownsample 20 time accel days wear
      withFs fs (sleepDayLoop ext cfg (some 20) dsr.1 dsr.2.1 dsr.2.2.2
        dsr.2.2.1.enum)
    else
      withFs fs (sleepDayLoop ext cfg fs time accel wear days.enum)

/-- A concrete external-collaborator instantiation used by the concrete
    counterexamples and witnesses: identity downsampling, no wear blocks,
    no TSO window. -/
def extNoTso : SleepExternal :=
  ⟨fun _ t a d w => (t, a, d, w), fun _ _ _ => ([], []),
   fun _ _ _ _ _ => none, fun _ => "2020-01-01", fun _ => "",
   fun _ => [], 2⟩

/-- A concrete external-collaborator instantiation whose TSO detector
    always finds the window (start timestamp 5, sample indices 0 to 1200). -/
def extTso : SleepExternal :=
  ⟨fun _ t a d w => (t, a, d, w), fun _ _ _ => ([], []),
   fun _ _ _ _ _ => some (5, 0, 1200), fun _ => "2020-01-01", fun _ => "",
   fun _ => [], 0⟩

/-- A concrete 151-sample flat timestamp array (long enough for the date
    read 50 samples past a day start at index 0). -/
def flatTime : List ℚ := List.replicate 151 0

/-- A concrete 151-sample timestamp ramp 0, 1, ..., 150, whose consecutive
    differences all equal 1, so the inferred fs is 1. -/
def rampTime : List ℚ := (List.range 151).map (fun i : ℕ => (i : ℚ))

/-- A concrete configuration: no hour minimum, one wear-hour minimum, no
    downsampling, the default (12, 24) day window. -/
def cfgWearMin : SleepConfig := ⟨0, 1, false, (12, 24)⟩

/-- A concrete configuration: no hour or wear minimum, downsampling
    enabled, the default (12, 24) day window. -/
def cfgDownsample : SleepConfig := ⟨0, 0, true, (12, 24)⟩

/-- The list of per-day TSO-duration cells of a predict result (empty on
    error); a decidable projection used to compare concrete runs. -/
def rowsDurations (r : Except String SleepOutput) : List (Option ℚ) :=
  match r with
  | Except.ok o => o.rows.map (fun row => row.tsoDuration)
  | Except.error _ => []

/-- Helper fact: the mask of a fully qualifying sequence is all ones. -/
theorem intensityMask_all_one (accm : List ℚ) (lower upper : ℚ)
    (h : ∀ v ∈ accm, lower ≤ v ∧ v < upper) :
    intensityMask accm lower upper = List.replicate accm.length 1 := by
  induction accm with
  | nil => rfl
  | cons a t ih =>
    have ha := h a (by simp)
    have ih' := ih (fun v hv => h v (by simp [hv]))
    simp only [intensityMask] at ih' ⊢
    simp only [List.map_cons, List.length_cons, List.replicate_succ]
    rw [if_pos ha, ih']

/-- Helper fact: getD on a replicate list. -/
theorem getD_replicate_of_lt (n j : ℕ) (a d : ℕ) (h : j < n) :
    (List.replicate n a).getD j d = a := by
  rw [List.getD_eq_getElem?_getD, List.getElem?_replicate]
  simp [h]

/-- Helper fact: the nonzero indices of an all-ones mask are all indices. -/
theorem nonzeroIdx_replicate_one (n : ℕ) :
    nonzeroIdx (List.replicate n 1) = List.range n := by
  unfold nonzeroIdx
  rw [List.length_replicate]
  apply List.filter_eq_self.mpr
  intro j hj
  rw [List.mem_range] at hj
  rw [getD_replicate_of_lt n j 1 0 hj]
  decide

/-- Helper fact: slice sums over an all-ones list count the slice length. -/
theorem sumRange_replicate_one (n s e : ℕ) :
    sumRange (List.replicate n 1) s e = min (e - s) (n - s) := by
  unfold sumRange
  rw [List.drop_replicate, List.take_replicate, List.sum_replicate]
  simp

/-- Helper fact: getD on a range list below the bound. -/
theorem getD_range_of_lt (n j d : ℕ) (h : j < n) :
    (List.range n).getD j d = j := by
  rw [List.getD_eq_getElem?_getD, List.getElem?_range h]
  rfl

/-- Helper fact: the window-extension loop of metric 1, started at index 0 on
    an all-ones mask with a strict fraction criterion below one, runs to the
    end of the sequence. -/
theorem extendEnd_ones (n : ℕ) (crit : ℚ) (hc : crit < 1) :
    ∀ fuel e, e ≤ n → n - e ≤ fuel →
      extendEnd (List.replicate n 1) crit 0 e fuel = n := by
  intro fuel
  induction fuel with
  | zero =>
    intro e he hf
    have : e = n := by omega
    simp [extendEnd, this]
  | succ fuel ih =>
    intro e he hf
    rcases Nat.lt_or_ge e n with hlt | hge
    · have hcond : (sumRange (List.replicate n 1) 0 (e+1) : ℚ)
          > ((e + 1 - 0 : ℕ) : ℚ) * crit ∧ e < (List.replicate n 1).length := by
        constructor
        · rw [sumRange_replicate_one]
          have hmin : min (e + 1 - 0) (n - 0) = e + 1 := by omega
          rw [hmin]
          have hpos : (0 : ℚ) < ((e + 1 : ℕ) : ℚ) := by positivity
          calc ((e + 1 - 0 : ℕ) : ℚ) * crit = ((e + 1 : ℕ) : ℚ) * crit := by norm_num
            _ < ((e + 1 : ℕ) : ℚ) * 1 := by
                exact mul_lt_mul_of_pos_left hc hpos
            _ = ((e + 1 : ℕ) : ℚ) := by ring
        · simpa using hlt
      simp only [extendEnd, if_pos hcond]
      exact ih (e+1) (by omega) (by omega)
    · have he' : e = n := by omega
      rw [he']
      have hcond : ¬ ((sumRange (List.replicate n 1) 0 (n+1) : ℚ)
          > ((n + 1 - 0 : ℕ) : ℚ) * crit ∧ n < (List.replicate n 1).length) := by
        rintro ⟨-, hx⟩
        rw [List.length_replicate] at hx
        omega
      simp only [extendEnd, if_neg hcond]

/-- Helper fact: the extension loop never shrinks the window end. -/
theorem extendEnd_ge (x : List ℕ) (crit : ℚ) (start : ℕ) :
    ∀ fuel e, e ≤ extendEnd x crit start e fuel := by
  intro fuel
  induction fuel with
  | zero => intro e; simp [extendEnd]
  | succ fuel ih =>
    intro e
    by_cases hcond : (sumRange x start (e+1) : ℚ) > ((e + 1 - start : ℕ) : ℚ) * crit ∧ e < x.length
    · simp only [extendEnd, if_pos hcond]
      exact le_trans (by omega) (ih (e+1))
    · simp only [extendEnd, if_neg hcond]
      exact le_refl e

/-- Helper fact: listMaxN is below any common upper bound of the entries. -/
theorem listMaxN_le (l : List ℕ) (b : ℕ) (h : ∀ x ∈ l, x ≤ b) :
    listMaxN l ≤ b := by
  induction l with
  | nil => simp [listMaxN]
  | cons a t ih =>
    unfold listMaxN at ih ⊢
    simp only [List.foldr_cons]
    exact Nat.max_le.mpr ⟨h a (by simp), ih (fun x hx => h x (by simp [hx]))⟩

/-- Helper fact: every member is bounded by listMaxN. -/
theorem le_listMaxN (l : List ℕ) (a : ℕ) (h : a ∈ l) : a ≤ listMaxN l := by
  induction l with
  | nil => cases h
  | cons b t ih =>
    unfold listMaxN at ih ⊢
    rcases List.mem_cons.mp h with rfl | ht
    · simp
    · simp only [List.foldr_cons]
      exact le_trans (ih ht) (Nat.le_max_right _ _)

/-- Helper fact: the maximum entry of range (n+1) is n. -/
theorem listMaxN_range_succ (n : ℕ) : listMaxN (List.range (n+1)) = n := by
  apply Nat.le_antisymm
  · exact listMaxN_le _ n (fun x hx => by rw [List.mem_range] at hx; omega)
  · exact le_listMaxN _ n (by rw [List.mem_range]; omega)

/-- Helper fact: the scan loop of metric 1 is the identity on the
    accumulated time once the scan index passes the end. -/
theorem m1Loop_done (x p : List ℕ) (W : ℕ) (crit : ℚ) (closed : Bool)
    (wlen : ℕ) (i : ℕ) (t : ℚ) (fuel : ℕ) (h : p.length ≤ i) :
    m1Loop x p W crit closed wlen i t fuel = t := by
  cases fuel with
  | zero => rfl
  | succ fuel =>
    have : ¬ i < p.length := by omega
    simp only [m1Loop, if_neg this]

/-- Helper fact: the integer window length computed by get_activity_bouts
    agrees with bout_duration_minutes times epochs per minute whenever the
    epoch length divides 60 seconds. -/
theorem nboutdur_eq (wlen boutdur : ℕ) (hdvd : wlen ∣ 60) (hw : 0 < wlen) :
    (((boutdur : ℚ) * ((60 : ℚ) / (wlen : ℚ))).floor).toNat = boutdur * (60 / wlen) := by
  have hw' : ((wlen : ℚ)) ≠ 0 := by positivity
  have hcast : ((60 / wlen : ℕ) : ℚ) = (60 : ℚ) / (wlen : ℚ) := by
    rw [Nat.cast_div hdvd hw']
    norm_num
  have : (boutdur : ℚ) * ((60 : ℚ) / (wlen : ℚ)) = ((boutdur * (60 / wlen) : ℕ) : ℚ) := by
    rw [← hcast]
    push_cast
    ring
  rw [this]
  norm_cast

/-- Helper fact: the metric 1 scan loop on a fully qualifying mask of length
    n strictly longer than the window accepts a single bout covering the
    whole sequence, for closed and non-closed bouts alike. -/
theorem m1Loop_ones (n W : ℕ) (crit : ℚ) (closed : Bool) (wlen : ℕ)
    (hW : 1 ≤ W) (hn : W < n) (hc : crit < 1) :
    m1Loop (List.replicate n 1) (List.range n) W crit closed wlen 0 0 (n+1)
      = (n : ℚ) * ((wlen : ℚ) / 60) := by
  have hn0 : 0 < n := by omega
  simp only [m1Loop, List.length_range, List.length_replicate, List.drop_zero]
  rw [if_pos hn0]
  rw [getD_range_of_lt n 0 0 hn0]
  have h0W : 0 + W < n := by omega
  rw [if_pos h0W]
  have hsum : (sumRange (List.replicate n 1) 0 (0 + W) : ℚ) > (W:ℚ) * crit := by
    rw [sumRange_replicate_one]
    have hmin : min (0 + W - 0) (n - 0) = W := by omega
    rw [hmin]
    have hW1 : (1:ℚ) ≤ (W:ℚ) := by exact_mod_cast hW
    nlinarith
  rw [if_pos hsum]
  have hext : extendEnd (List.replicate n 1) crit 0 (0 + W) (n + 1) = n :=
    extendEnd_ones n crit hc (n+1) (0+W) (by omega) (by omega)
  rw [hext]
  have hfilter : List.filter (fun q => decide (q < n)) (List.range n) = List.range n :=
    List.filter_eq_self.mpr (fun a ha => by rw [List.mem_range] at ha; simpa using ha)
  rw [hfilter, List.length_range]
  have hjump : n ⊔ 1 = n := Nat.max_eq_left hn0
  rw [hjump]
  have hmax : listMaxN (List.range n) = n - 1 := by
    cases n with
    | zero => exact absurd hn0 (lt_irrefl 0)
    | succ m => simpa using listMaxN_range_succ m
  rw [hmax]
  rw [m1Loop_done _ _ _ _ _ _ _ _ _ (by simp)]
  cases closed with
  | false => simp
  | true =>
    simp only [if_pos rfl]
    have : ((n - 1 : ℕ) : ℤ) = (n : ℤ) - 1 := by omega
    rw [this]
    push_cast
    ring

/-- Helper fact: on a fully qualifying mask the metric 2 scan loop never
    demotes a mask entry, so the mask stays all ones and the overlay list
    keeps its length. -/
theorem m2Loop_ones (n W : ℕ) (crit : ℚ) (hW : 1 ≤ W) (hc : crit < 1) :
    ∀ fuel i xt, xt.length = n →
      (m2Loop (List.range n) W crit i (List.replicate n 1) xt fuel).1
          = List.replicate n 1 ∧
      ((m2Loop (List.range n) W crit i (List.replicate n 1) xt fuel).2).length = n := by
  intro fuel
  induction fuel with
  | zero => intro i xt hxt; exact ⟨rfl, hxt⟩
  | succ fuel ih =>
    intro i xt hxt
    by_cases hi : i < (List.range n).length
    · rw [List.length_range] at hi
      have hstart : (List.range n).getD i 0 = i := getD_range_of_lt n i 0 hi
      by_cases hiW : i + W < (List.replicate (n:ℕ) (1:ℕ)).length
      · rw [List.length_replicate] at hiW
        have hsum : (sumRange (List.replicate n 1) i (i + W) : ℚ) > (W:ℚ) * crit := by
          rw [sumRange_replicate_one]
          have hmin : min (i + W - i) (n - i) = W := by omega
          rw [hmin]
          have hW1 : (1:ℚ) ≤ (W:ℚ) := by exact_mod_cast hW
          nlinarith
        have hstep : m2Loop (List.range n) W crit i (List.replicate n 1) xt (fuel+1)
            = m2Loop (List.range n) W crit (i+1) (List.replicate n 1)
                (setRange xt i (i + W) 2) fuel := by
          simp only [m2Loop, List.length_range, List.length_replicate]
          rw [if_pos hi, hstart, if_pos hiW, if_pos hsum]
        rw [hstep]
        have hlen2 : (setRange xt i (i + W) 2).length = n := by
          unfold setRange
          rw [List.length_mapIdx]
          exact hxt
        exact ih (i+1) _ hlen2
      · by_cases h12 : 1 < (List.range n).length ∧ 2 < i
        · have him : i - 1 < n := by omega
          have hstep : m2Loop (List.range n) W crit i (List.replicate n 1) xt (fuel+1)
              = m2Loop (List.range n) W crit (i+1)
                  ((List.replicate n 1).set i 1) xt fuel := by
            simp only [m2Loop, List.length_range, List.length_replicate]
            rw [if_pos hi, hstart]
            rw [List.length_replicate] at hiW
            rw [if_neg hiW]
            rw [List.length_range] at h12
            rw [if_pos h12, getD_range_of_lt n (i-1) 0 him,
              getD_replicate_of_lt n (i-1) 1 0 him]
          rw [hstep, List.set_replicate_self]
          exact ih (i+1) xt hxt
        · have hstep : m2Loop (List.range n) W crit i (List.replicate n 1) xt (fuel+1)
              = m2Loop (List.range n) W crit (i+1) (List.replicate n 1) xt fuel := by
            simp only [m2Loop, List.length_range, List.length_replicate]
            rw [if_pos hi, hstart]
            rw [List.length_replicate] at hiW
            rw [if_neg hiW]
            rw [List.length_range] at h12
            rw [if_neg h12]
          rw [hstep]
          exact ih (i+1) xt hxt
    · have hstep : m2Loop (List.range n) W crit i (List.replicate n 1) xt (fuel+1)
          = (List.replicate n 1, xt) := by
        simp only [m2Loop]
        rw [if_neg hi]
      rw [hstep]
      exact ⟨rfl, hxt⟩

/-- Helper fact: overlaying bout marks on an all-ones mask leaves an
    all-ones list, so its sum is the full length. -/
theorem zip_overlay_ones (xt : List ℕ) :
    ∀ n, xt.length = n →
      (List.zipWith (fun a b => if b = 2 then 1 else a)
        (List.replicate n 1) xt).sum = n := by
  induction xt with
  | nil => intro n h; simp at h; simp [← h]
  | cons b t ih =>
    intro n h
    cases n with
    | zero => simp at h
    | succ m =>
      have ht : t.length = m := by simpa using h
      simp only [List.replicate_succ, List.zipWith_cons_cons, List.sum_cons]
      rw [ite_self, ih m ht]
      omega

/-- Helper fact: an entry fetched with getD below the length is a member. -/
theorem getD_mem_of_lt (p : List ℕ) (i : ℕ) (h : i < p.length) :
    p.getD i 0 ∈ p := by
  rw [List.getD_eq_getElem?_getD, List.getElem?_eq_getElem h]
  exact List.getElem_mem h

/-- Helper fact: the metric 1 scan loop never decreases the accumulated
    bout time below zero; every increment is nonnegative because for an
    accepted window the scan start is itself a qualifying index below the
    extended window end. -/
theorem m1Loop_nonneg (x p : List ℕ) (W : ℕ) (crit : ℚ) (closed : Bool)
    (wlen : ℕ) (hW : 1 ≤ W) :
    ∀ fuel i t, 0 ≤ t → 0 ≤ m1Loop x p W crit closed wlen i t fuel := by
  intro fuel
  induction fuel with
  | zero => intro i t ht; exact ht
  | succ fuel ih =>
    intro i t ht
    by_cases hi : i < p.length
    · by_cases hiW : p.getD i 0 + W < x.length
      · by_cases hsum : (sumRange x (p.getD i 0) (p.getD i 0 + W) : ℚ) > (W : ℚ) * crit
        · have hstep : m1Loop x p W crit closed wlen i t (fuel+1)
              = m1Loop x p W crit closed wlen
                  (i + max ((p.drop i).filter (fun q => decide
                    (q < extendEnd x crit (p.getD i 0) (p.getD i 0 + W) (x.length + 1)))).length 1)
                  (if closed then
                    t + (((listMaxN (p.filter (fun q => decide
                          (q < extendEnd x crit (p.getD i 0) (p.getD i 0 + W) (x.length + 1)))) : ℤ)
                          - ((p.getD i 0) : ℤ) + 1 : ℤ) : ℚ) * ((wlen : ℚ) / 60)
                   else
                    t + (((p.drop i).filter (fun q => decide
                          (q < extendEnd x crit (p.getD i 0) (p.getD i 0 + W) (x.length + 1)))).length : ℚ)
                        * ((wlen : ℚ) / 60))
                  fuel := by
            simp only [m1Loop]
            rw [if_pos hi, if_pos hiW, if_pos hsum]
          rw [hstep]
          apply ih
          have hwpos : (0:ℚ) ≤ (wlen : ℚ) / 60 := by positivity
          cases closed with
          | false =>
            simp only [Bool.false_eq_true, if_neg (by simp : ¬ False)]
            have : (0:ℚ) ≤ ((((p.drop i).filter (fun q => decide
                (q < extendEnd x crit (p.getD i 0) (p.getD i 0 + W) (x.length + 1)))).length : ℚ))
                * ((wlen : ℚ) / 60) := by positivity
            linarith
          | true =>
            simp only [reduceIte]
            have hstart_mem : p.getD i 0 ∈ p.filter (fun q => decide
                (q < extendEnd x crit (p.getD i 0) (p.getD i 0 + W) (x.length + 1))) := by
              rw [List.mem_filter]
              refine ⟨getD_mem_of_lt p i hi, ?_⟩
              have hge := extendEnd_ge x crit (p.getD i 0) (x.length + 1) (p.getD i 0 + W)
              simp only [decide_eq_true_eq]
              omega
            have hle := le_listMaxN _ _ hstart_mem
            have hz : (0:ℚ) ≤ (((listMaxN (p.filter (fun q => decide
                (q < extendEnd x crit (p.getD i 0) (p.getD i 0 + W) (x.length + 1)))) : ℤ)
                - ((p.getD i 0) : ℤ) + 1 : ℤ) : ℚ) := by
              have : (0:ℤ) ≤ ((listMaxN (p.filter (fun q => decide
                  (q < extendEnd x crit (p.getD i 0) (p.getD i 0 + W) (x.length + 1)))) : ℤ)
                  - ((p.getD i 0) : ℤ) + 1 : ℤ) := by omega
              exact_mod_cast this
            nlinarith
        · have hstep : m1Loop x p W crit closed wlen i t (fuel+1)
              = m1Loop x p W crit closed wlen (i+1) t fuel := by
            simp only [m1Loop]
            rw [if_pos hi, if_pos hiW, if_neg hsum]
          rw [hstep]; exact ih (i+1) t ht
      · have hstep : m1Loop x p W crit closed wlen i t (fuel+1)
            = m1Loop x p W crit closed wlen (i+1) t fuel := by
          simp only [m1Loop]
          rw [if_pos hi, if_neg hiW]
        rw [hstep]; exact ih (i+1) t ht
    · have hstep : m1Loop x p W crit closed wlen i t (fuel+1) = t := by
        simp only [m1Loop]
        rw [if_neg hi]
      rw [hstep]; exact ht

/-- Helper fact: metrics 3 and 4 raise exactly when the break-detection
    window 60/wlen + 1 exceeds the sequence length; every other outcome is
    a some value (the bout-window moving mean is guarded by try/except). -/
theorem m34core_isNone_iff (accm : List ℚ) (lower upper : ℚ) (wlen W : ℕ)
    (crit : ℚ) (requireEnds : Bool) :
    (m34core accm lower upper wlen W crit requireEnds = none)
      ↔ accm.length < 60 / wlen + 1 := by
  have hmaskl : ((intensityMask accm lower upper).map (fun v : ℕ => (v : ℚ))).length
      = accm.length := by
    rw [List.length_map]
    unfold intensityMask
    rw [List.length_map]
  simp only [m34core]
  cases requireEnds
  all_goals simp only [Bool.false_eq_true, if_neg, if_pos, reduceIte]
  all_goals constructor
  all_goals intro h
  · split at h
    · rename_i heq
      unfold moving_mean at heq
      split at heq
      · exact absurd heq (by simp)
      · rename_i hguard
        rw [hmaskl] at hguard
        generalize hk : (60 : ℕ) / wlen = k at hguard ⊢
        omega
    · split at h <;> exact absurd h (by simp)
  · have hmm : moving_mean ((intensityMask accm lower upper).map (fun v : ℕ => (v : ℚ)))
        (60 / wlen + 1) = none := by
      unfold moving_mean
      rw [if_neg]
      rintro ⟨-, h2⟩
      rw [hmaskl] at h2
      omega
    split
    · rfl
    · rename_i heq
      rw [hmm] at heq
      exact absurd heq (by simp)
  · split at h
    · rename_i heq
      unfold moving_mean at heq
      split at heq
      · exact absurd heq (by simp)
      · rename_i hguard
        rw [hmaskl] at hguard
        generalize hk : (60 : ℕ) / wlen = k at hguard ⊢
        omega
    · split at h <;> exact absurd h (by simp)
  · have hmm : moving_mean ((intensityMask accm lower upper).map (fun v : ℕ => (v : ℚ)))
        (60 / wlen + 1) = none := by
      unfold moving_mean
      rw [if_neg]
      rintro ⟨-, h2⟩
      rw [hmaskl] at h2
      omega
    split
    · rfl
    · rename_i heq
      rw [hmm] at heq
      exact absurd heq (by simp)

/-- Helper fact: when metrics 3 and 4 do return a value it is nonnegative. -/
theorem m34core_nonneg (accm : List ℚ) (lower upper : ℚ) (wlen W : ℕ)
    (crit : ℚ) (requireEnds : Bool) (t : ℚ)
    (h : m34core accm lower upper wlen W crit requireEnds = some t) :
    0 ≤ t := by
  simp only [m34core] at h
  cases requireEnds
  all_goals simp only [Bool.false_eq_true, reduceIte] at h
  all_goals split at h
  · exact absurd h (by simp)
  · split at h
    · simp only [Option.some.injEq] at h
      exact le_of_eq h
    · simp only [Option.some.injEq] at h
      rw [← h]
      positivity
  · exact absurd h (by simp)
  · split at h
    · simp only [Option.some.injEq] at h
      exact le_of_eq h
    · simp only [Option.some.injEq] at h
      rw [← h]
      positivity

/-- C2 counterexample: for bout metric 3 a fully qualifying 12-epoch
    sequence at 60-second epochs with a 10-minute window yields 11 bout
    minutes, not the full 12-minute duration claimed for all four metrics. -/
theorem claimC2_counterexample :
    get_activity_bouts onesInput (1/10) 100 60 10 (4/5) true 3
      ≠ some ((12 : ℚ) * ((60 : ℚ) / 60)) := by
  with_unfolding_all decide

/-- C2 as amended: for bout metrics 1 and 2, with the epoch length dividing
    60 seconds, a positive bout duration and a bout fraction below one, a
    fully qualifying sequence of length at least the window length W (and
    strictly longer than W for metric 1) yields bout minutes equal to the
    entire sequence duration in minutes.  (For metrics 3 and 4 the claim
    fails: the break-detection moving mean never covers the trailing
    epochs, so they are never counted.) -/
theorem claimC2_full_duration (accm : List ℚ) (lower upper : ℚ)
    (wlen boutdur : ℕ) (crit : ℚ) (cb : Bool) (metric : ℕ)
    (hdvd : wlen ∣ 60) (hw : 0 < wlen) (hb : 0 < boutdur) (hc : crit < 1)
    (hq : ∀ v ∈ accm, lower ≤ v ∧ v < upper)
    (hm : metric = 1 ∨ metric = 2)
    (hlen : boutdur * (60 / wlen) ≤ accm.length)
    (hlen1 : metric = 1 → boutdur * (60 / wlen) < accm.length) :
    get_activity_bouts accm lower upper wlen boutdur crit cb metric
      = some ((accm.length : ℚ) * ((wlen : ℚ) / 60)) := by
  have hW1 : 1 ≤ boutdur * (60 / wlen) := by
    have hle : wlen ≤ 60 := Nat.le_of_dvd (by norm_num) hdvd
    have : 0 < 60 / wlen := Nat.div_pos hle hw
    exact Nat.one_le_iff_ne_zero.mpr (by positivity)
  rcases hm with h1 | h2
  · subst h1
    simp only [get_activity_bouts, reduceIte]
    rw [nboutdur_eq wlen boutdur hdvd hw]
    rw [if_neg (by omega : ¬ accm.length < boutdur * (60/wlen))]
    rw [intensityMask_all_one accm lower upper hq]
    rw [nonzeroIdx_replicate_one, List.length_range]
    rw [m1Loop_ones accm.length (boutdur * (60/wlen)) crit cb wlen hW1
      (hlen1 rfl) hc]
  · subst h2
    simp only [get_activity_bouts, reduceIte]
    rw [nboutdur_eq wlen boutdur hdvd hw]
    rw [if_neg (by omega : ¬ accm.length < boutdur * (60/wlen))]
    rw [intensityMask_all_one accm lower upper hq]
    rw [nonzeroIdx_replicate_one, List.length_range, List.length_replicate]
    obtain ⟨hx, hxt⟩ := m2Loop_ones accm.length (boutdur * (60/wlen)) crit hW1 hc
      (accm.length + 1) 0 (List.replicate accm.length 0) (List.length_replicate _ _)
    rw [hx, zip_overlay_ones _ accm.length hxt]
    norm_num

/-- C2 witness: a concrete instance of the amended claim, metric 1 on the
    fully qualifying 12-epoch scenario input. -/
theorem claimC2_witness :
    get_activity_bouts onesInput (1/10) 100 60 10 (4/5) true 1
      = some ((onesInput.length : ℚ) * ((60 : ℚ) / 60)) :=
  claimC2_full_duration onesInput (1/10) 100 60 10 (4/5) true 1
    (by norm_num) (by norm_num) (by norm_num) (by norm_num)
    (by intro v hv; fin_cases hv <;> norm_num)
    (Or.inl rfl) (by norm_num [onesInput]) (fun h => by norm_num [onesInput])

/-- C1 counterexample: on the gap scenario input (epochs 5 and 6 fail to
    qualify) with epoch_seconds 60, 10-minute bouts, fraction 0.8 and
    metric 1, the bout time is not 12 minutes for closed bouts (nor 10 for
    open bouts): the strict fraction comparison rejects every candidate
    window, so the result is 0 for both. -/
theorem claimC1_counterexample :
    ¬ (get_activity_bouts gapInput (1/10) 100 60 10 (4/5) true 1 = some 12
        ∧ get_activity_bouts gapInput (1/10) 100 60 10 (4/5) false 1 = some 10) := by
  with_unfolding_all decide

/-- C1 as amended: on the gap scenario input the detector returns 0
    minutes, both with closed_bout true and with closed_bout false. -/
theorem claimC1_gap_zero :
    get_activity_bouts gapInput (1/10) 100 60 10 (4/5) true 1 = some 0
      ∧ get_activity_bouts gapInput (1/10) 100 60 10 (4/5) false 1 = some 0 := by
  constructor
  · with_unfolding_all decide
  · with_unfolding_all decide

/-- C3 counterexample: a call with metric_id 5 (outside 1..4) on a sequence
    shorter than the window length returns 0 instead of raising, because
    the short-input check precedes the metric dispatch. -/
theorem claimC3_counterexample :
    get_activity_bouts [] 0 1 60 1 (4/5) true 5 ≠ none := by
  with_unfolding_all decide

/-- C3 as amended: with a positive epoch length dividing 60 and a positive
    bout duration, the bout detector raises exactly when the input length
    is at least the window length W and either the metric id is outside
    1..4 or the metric is 3 or 4 and the input is shorter than
    60/epoch_seconds + 1 epochs; inputs shorter than W return 0 for every
    metric id, and every non-raising call returns a nonnegative number of
    minutes. -/
theorem claimC3_raise_iff (accm : List ℚ) (lower upper : ℚ)
    (wlen boutdur : ℕ) (crit : ℚ) (cb : Bool) (metric : ℕ)
    (hdvd : wlen ∣ 60) (hw : 0 < wlen) (hb : 0 < boutdur) :
    ((get_activity_bouts accm lower upper wlen boutdur crit cb metric = none)
       ↔ (boutdur * (60 / wlen) ≤ accm.length ∧
           (¬ (metric = 1 ∨ metric = 2 ∨ metric = 3 ∨ metric = 4)
             ∨ ((metric = 3 ∨ metric = 4) ∧ accm.length < 60 / wlen + 1))))
    ∧ (accm.length < boutdur * (60 / wlen) →
        get_activity_bouts accm lower upper wlen boutdur crit cb metric = some 0)
    ∧ (∀ t, get_activity_bouts accm lower upper wlen boutdur crit cb metric
          = some t → 0 ≤ t) := by
  have hW1 : 1 ≤ boutdur * (60 / wlen) := by
    have hle : wlen ≤ 60 := Nat.le_of_dvd (by norm_num) hdvd
    have : 0 < 60 / wlen := Nat.div_pos hle hw
    exact Nat.one_le_iff_ne_zero.mpr (by positivity)
  simp only [get_activity_bouts]
  rw [nboutdur_eq wlen boutdur hdvd hw]
  by_cases hshort : accm.length < boutdur * (60 / wlen)
  · rw [if_pos hshort]
    refine ⟨?_, ?_, ?_⟩
    · constructor
      · intro h; exact absurd h (by simp)
      · rintro ⟨h1, -⟩
        exact absurd h1 (Nat.not_le.mpr hshort)
    · rintro -; rfl
    · intro t ht
      simp only [Option.some.injEq] at ht
      exact le_of_eq ht
  · rw [if_neg hshort]
    by_cases hm1 : metric = 1
    · subst hm1
      rw [if_pos rfl]
      refine ⟨?_, ?_, ?_⟩
      · constructor
        · intro h; exact absurd h (by simp)
        · rintro ⟨-, h⟩
          rcases h with h | ⟨h34, -⟩
          · exact (h (by norm_num)).elim
          · rcases h34 with h3 | h4
            · exact absurd h3 (by norm_num)
            · exact absurd h4 (by norm_num)
      · intro h; exact absurd h hshort
      · intro t ht
        simp only [Option.some.injEq] at ht
        rw [← ht]
        exact m1Loop_nonneg _ _ _ crit cb wlen hW1 _ 0 0 le_rfl
    · by_cases hm2 : metric = 2
      · subst hm2
        rw [if_neg (by norm_num : ¬ (2:ℕ) = 1), if_pos rfl]
        refine ⟨?_, ?_, ?_⟩
        · constructor
          · intro h; exact absurd h (by simp)
          · rintro ⟨-, h⟩
            rcases h with h | ⟨h34, -⟩
            · exact (h (by norm_num)).elim
            · rcases h34 with h3 | h4
              · exact absurd h3 (by norm_num)
              · exact absurd h4 (by norm_num)
        · intro h; exact absurd h hshort
        · intro t ht
          simp only [Option.some.injEq] at ht
          rw [← ht]
          positivity
      · by_cases hm3 : metric = 3
        · subst hm3
          rw [if_neg (by norm_num : ¬ (3:ℕ) = 1), if_neg (by norm_num : ¬ (3:ℕ) = 2),
            if_pos rfl]
          rw [m34core_isNone_iff accm lower upper wlen (boutdur * (60 / wlen)) crit false]
          refine ⟨?_, ?_, ?_⟩
          · constructor
            · intro h; exact ⟨Nat.le_of_not_lt hshort, Or.inr ⟨Or.inl rfl, h⟩⟩
            · rintro ⟨-, h⟩
              rcases h with h | ⟨-, hlt⟩
              · exact absurd (by norm_num : ((3:ℕ) = 1 ∨ (3:ℕ) = 2 ∨ (3:ℕ) = 3 ∨ (3:ℕ) = 4)) h
              · exact hlt
          · intro h; exact absurd h hshort
          · intro t ht
            exact m34core_nonneg accm lower upper wlen _ crit false t ht
        · by_cases hm4 : metric = 4
          · subst hm4
            rw [if_neg (by norm_num : ¬ (4:ℕ) = 1), if_neg (by norm_num : ¬ (4:ℕ) = 2),
              if_neg (by norm_num : ¬ (4:ℕ) = 3), if_pos rfl]
            rw [m34core_isNone_iff accm lower upper wlen (boutdur * (60 / wlen)) crit true]
            refine ⟨?_, ?_, ?_⟩
            · constructor
              · intro h; exact ⟨Nat.le_of_not_lt hshort, Or.inr ⟨Or.inr rfl, h⟩⟩
              · rintro ⟨-, h⟩
                rcases h with h | ⟨-, hlt⟩
                · exact absurd (by norm_num : ((4:ℕ) = 1 ∨ (4:ℕ) = 2 ∨ (4:ℕ) = 3 ∨ (4:ℕ) = 4)) h
                · exact hlt
            · intro h; exact absurd h hshort
            · intro t ht
              exact m34core_nonneg accm lower upper wlen _ crit true t ht
          · rw [if_neg hm1, if_neg hm2, if_neg hm3, if_neg hm4]
            refine ⟨?_, ?_, ?_⟩
            · constructor
              · rintro -
                refine ⟨Nat.le_of_not_lt hshort, Or.inl ?_⟩
                rintro (h | h | h | h)
                · exact hm1 h
                · exact hm2 h
                · exact hm3 h
                · exact hm4 h
              · rintro -; rfl
            · intro h; exact absurd h hshort
            · intro t ht; exact absurd ht (by simp)

/-- C3 witness: the amended claim instantiated concretely: metric id 7 on
    an input at least as long as the window raises the invalid-metric
    error, by the amended characterization. -/
theorem claimC3_witness :
    get_activity_bouts [1] 0 1 60 1 (4/5) true 7 = none :=
  (claimC3_raise_iff [1] 0 1 60 1 (4/5) true 7
    (by norm_num) (by norm_num) (by norm_num)).1.mpr
    (by norm_num)

/-- Helper fact: a fold of max is at least its initial value. -/
theorem foldl_max_init (t : List ℚ) : ∀ a : ℚ, a ≤ t.foldl max a := by
  induction t with
  | nil => intro a; exact le_refl a
  | cons b t ih =>
    intro a
    simp only [List.foldl_cons]
    exact le_trans (le_max_left a b) (ih (max a b))

/-- Helper fact: a fold of max dominates every list entry. -/
theorem le_foldl_max (t : List ℚ) : ∀ (a y : ℚ), y ∈ t → y ≤ t.foldl max a := by
  induction t with
  | nil => intro a y hy; cases hy
  | cons b t ih =>
    intro a y hy
    simp only [List.foldl_cons]
    rcases List.mem_cons.mp hy with rfl | ht
    · exact le_trans (le_max_right a y) (foldl_max_init t (max a y))
    · exact ih (max a b) y ht

/-- Helper fact: qmax dominates every entry of the list. -/
theorem le_qmax (l : List ℚ) (y : ℚ) (h : y ∈ l) : y ≤ qmax l := by
  cases l with
  | nil => cases h
  | cons a t =>
    rcases List.mem_cons.mp h with rfl | ht
    · exact foldl_max_init t y
    · exact le_foldl_max t a y ht

/-- Helper fact: a fold of max over a list is the initial value or a list
    entry. -/
theorem foldl_max_mem (t : List ℚ) : ∀ a : ℚ, t.foldl max a ∈ a :: t := by
  induction t with
  | nil => intro a; simp
  | cons b t ih =>
    intro a
    simp only [List.foldl_cons]
    have := ih (max a b)
    rcases List.mem_cons.mp this with heq | ht
    · rcases max_choice a b with hab | hab
      · rw [heq, hab]; simp
      · rw [heq, hab]; simp
    · simp [List.mem_cons.mpr (Or.inr ht)]

/-- Helper fact: qmax of a nonempty list is a member. -/
theorem qmax_mem (l : List ℚ) (h : l ≠ []) : qmax l ∈ l := by
  cases l with
  | nil => exact absurd rfl h
  | cons a t => exact foldl_max_mem t a

/-- Helper fact: the moving-mean list of a window not exceeding the data
    is nonempty. -/
theorem mmList_ne_nil (x : List ℚ) (n : ℕ) :
    mmList x n ≠ [] := by
  apply List.ne_nil_of_length_pos
  unfold mmList
  rw [List.length_map, List.length_range]
  omega

/-- Helper fact: every window mean of the left half is a window mean of
    the concatenation. -/
theorem mmList_subset_left (A B : List ℚ) (n : ℕ) (hnA : n ≤ A.length) (y : ℚ)
    (hy : y ∈ mmList A n) : y ∈ mmList (A ++ B) n := by
  unfold mmList at hy ⊢
  rw [List.mem_map] at hy
  obtain ⟨i, hi, hval⟩ := hy
  rw [List.mem_range] at hi
  rw [List.mem_map]
  refine ⟨i, ?_, ?_⟩
  · rw [List.mem_range, List.length_append]
    omega
  · have hiA : i ≤ A.length := by omega
    have hwin : ((A ++ B).drop i).take n = (A.drop i).take n := by
      rw [List.drop_append_of_le_length hiA]
      by_cases hni : n ≤ (A.drop i).length
      · rw [List.take_append_of_le_length hni]
      · rw [List.length_drop] at hni
        omega
    rw [hwin]
    exact hval

/-- Helper fact: every window mean of the right half is a window mean of
    the concatenation, offset by the length of the left half. -/
theorem mmList_subset_right (A B : List ℚ) (n : ℕ) (hnB : n ≤ B.length)
    (y : ℚ) (hy : y ∈ mmList B n) : y ∈ mmList (A ++ B) n := by
  unfold mmList at hy ⊢
  rw [List.mem_map] at hy
  obtain ⟨i, hi, hval⟩ := hy
  rw [List.mem_range] at hi
  rw [List.mem_map]
  refine ⟨A.length + i, ?_, ?_⟩
  · rw [List.mem_range, List.length_append]
    omega
  · have hwin : ((A ++ B).drop (A.length + i)).take n = (B.drop i).take n := by
      rw [List.drop_append]
    rw [hwin]
    exact hval

/-- C5 counterexample: with window length 2 (epochs_per_min = 1), halves
    [0, 1] and [1, 0] give a final slot of 1/2, while the concatenated
    sequence [0, 1, 1, 0] contains the straddling window [1, 1] and gives
    1, so the two runs differ. -/
theorem claimC5_counterexample :
    maxAccIngest [1, 0] 1 2 (maxAccIngest [0, 1] 1 2 none)
      ≠ maxAccIngest ([0, 1] ++ [1, 0]) 1 2 none := by
  with_unfolding_all decide

/-- C5 as amended: for window lengths not exceeding either half, ingesting
    the two halves of a sequence yields a final slot value that is less
    than or equal to (not in general equal to) the slot value from a
    single ingest of the concatenated sequence; equality can fail because
    the concatenation also contains windows straddling the split point. -/
theorem claimC5_split_le (A B : List ℚ) (w epm : ℕ)
    (h1 : 1 ≤ w * epm) (hA : w * epm ≤ A.length) (hB : w * epm ≤ B.length) :
    ∃ a b,
      maxAccIngest B epm w (maxAccIngest A epm w none) = some a ∧
      maxAccIngest (A ++ B) epm w none = some b ∧ a ≤ b := by
  have hmmA : moving_mean A (w * epm) = some (mmList A (w * epm)) := by
    unfold moving_mean
    rw [if_pos ⟨h1, hA⟩]
  have hmmB : moving_mean B (w * epm) = some (mmList B (w * epm)) := by
    unfold moving_mean
    rw [if_pos ⟨h1, hB⟩]
  have hmmAB : moving_mean (A ++ B) (w * epm) = some (mmList (A ++ B) (w * epm)) := by
    unfold moving_mean
    rw [if_pos ⟨h1, by rw [List.length_append]; omega⟩]
  have hfirst : maxAccIngest A epm w none = some (qmax (mmList A (w * epm))) := by
    unfold maxAccIngest maxAccPredict
    rw [hmmA]
    rfl
  have hsecond : maxAccIngest B epm w (some (qmax (mmList A (w * epm))))
      = some (max (qmax (mmList B (w * epm))) (qmax (mmList A (w * epm)))) := by
    unfold maxAccIngest maxAccPredict
    rw [hmmB]
    rfl
  have hconcat : maxAccIngest (A ++ B) epm w none
      = some (qmax (mmList (A ++ B) (w * epm))) := by
    unfold maxAccIngest maxAccPredict
    rw [hmmAB]
    rfl
  refine ⟨max (qmax (mmList B (w * epm))) (qmax (mmList A (w * epm))),
    qmax (mmList (A ++ B) (w * epm)), ?_, hconcat, ?_⟩
  · rw [hfirst, hsecond]
  · apply max_le
    · exact le_qmax _ _ (mmList_subset_right A B (w * epm) hB _
        (qmax_mem _ (mmList_ne_nil B (w * epm))))
    · exact le_qmax _ _ (mmList_subset_left A B (w * epm) hA _
        (qmax_mem _ (mmList_ne_nil A (w * epm))))

/-- C5 witness: the amended inequality at the counterexample input, where
    the two-half run gives 1/2 and the concatenated run gives 1. -/
theorem claimC5_witness :
    ∃ a b,
      maxAccIngest [1, 0] 1 2 (maxAccIngest [0, 1] 1 2 none) = some a ∧
      maxAccIngest ([0, 1] ++ [1, 0]) 1 2 none = some b ∧ a ≤ b :=
  claimC5_split_le [0, 1] [1, 0] 2 1 (by norm_num) (by norm_num) (by norm_num)

/-- C8 counterexample: with configured window lengths [3, 1] on two epochs
    of data (epochs_per_min = 1), the too-long 3-minute window is hit
    first and predict returns immediately, so the valid 1-minute window is
    never evaluated: the result is [none, none], not the [none, some 1]
    the claim requires. -/
theorem claimC8_counterexample :
    maxAccPredict 1 [0, 1] [(3, none), (1, none)] ≠ [none, some 1] := by
  with_unfolding_all decide

/-- C8 as amended: window lengths are processed in configured order; the
    first window length whose epoch count exceeds the data makes the call
    return without error: all earlier window lengths are evaluated and
    merged into their slots, while it and every later window length are
    skipped for that call. -/
theorem claimC8_first_skip (epm : ℕ) (metric : List ℚ)
    (pre post : List (ℕ × Option ℚ)) (w : ℕ) (s : Option ℚ)
    (hpre : ∀ q ∈ pre, 1 ≤ q.1 * epm ∧ q.1 * epm ≤ metric.length)
    (hw : metric.length < w * epm) :
    maxAccPredict epm metric (pre ++ (w, s) :: post)
      = pre.map (fun q => nanmaxMerge (qmax (mmList metric (q.1 * epm))) q.2)
        ++ s :: post.map Prod.snd := by
  induction pre with
  | nil =>
    simp only [List.nil_append, List.map_nil, maxAccPredict]
    have hmm : moving_mean metric (w * epm) = none := by
      unfold moving_mean
      rw [if_neg]
      rintro ⟨-, h2⟩
      omega
    rw [hmm]
  | cons q rest ih =>
    obtain ⟨hq1, hq2⟩ := hpre q (List.mem_cons_self q rest)
    obtain ⟨wq, sq⟩ := q
    have hmm : moving_mean metric (wq * epm) = some (mmList metric (wq * epm)) := by
      unfold moving_mean
      rw [if_pos ⟨hq1, hq2⟩]
    simp only [List.cons_append, maxAccPredict, List.map_cons, hmm]
    exact congrArg (fun z => nanmaxMerge (qmax (mmList metric (wq * epm))) sq :: z)
      (ih (fun r hr => hpre r (List.mem_cons_of_mem _ hr)))

/-- C8 witness: the amended behavior at a concrete input where the valid
    1-minute window precedes the too-long 3-minute window, so the first
    slot is merged and the later slots are left untouched. -/
theorem claimC8_witness :
    maxAccPredict 1 [0, 1] [(1, none), (3, none)]
      = [((1 : ℕ), (none : Option ℚ))].map
          (fun q => nanmaxMerge (qmax (mmList [0, 1] (q.1 * 1))) q.2)
        ++ none :: ([] : List (ℕ × Option ℚ)).map Prod.snd :=
  claimC8_first_skip 1 [0, 1] [(1, none)] [] 3 none
    (by intro q hq; fin_cases hq; norm_num) (by norm_num)

/-- C6 evaluation: with a 60-second epoch, a 1-minute bout duration and a
    single qualifying epoch (which passes the initial length-W check since
    W = 1), bout metric 3 raises an uncaught error from the break-detection
    moving mean (window 2 over a length-1 sequence), contradicting the
    spec requirement to return 0 minutes instead. -/
theorem claimC6_eval :
    get_activity_bouts [1] (1/10) 100 60 1 (4/5) true 3 = none := by
  with_unfolding_all decide

/-- C7: calling reset_cached (the finalize phase) on a freshly constructed
    or freshly reset IntensityGradient or FragmentationEndpoints instance
    writes nothing to the results table and returns the fresh state; and
    every reset_cached call, from any state, unconditionally resets the
    accumulation state, the recorded result pointers and the day index to
    their fresh values, for every abstracted regression and fragmentation
    statistics function. -/
theorem claimC7_finalize
    (regress : List ℚ → Option ℚ × Option ℚ × Option ℚ)
    (stats : List ℕ → Option ℚ × Option ℚ × Option ℚ × Option ℚ × Option ℚ)
    (tbl : IGTable) (tbl2 : FETable) (st : IGState) (st2 : FEState) :
    IGState.reset_cached regress IGState.fresh tbl = (IGState.fresh, tbl)
    ∧ FEState.reset_cached stats FEState.fresh tbl2 = (FEState.fresh, tbl2)
    ∧ (IGState.reset_cached regress st tbl).1 = IGState.fresh
    ∧ (FEState.reset_cached stats st2 tbl2).1 = FEState.fresh :=
  ⟨rfl, rfl, rfl, rfl⟩

/-- C9: when the supplied day-ends mapping has no entry for the configured
    (base, period) day-window key, Sleep.predict raises ValueError before
    processing any day. -/
theorem claimC9_missing_key (ext : SleepExternal) (cfg : SleepConfig)
    (time accel : List ℚ) (fsIn : Option ℚ) (wearIn : Option (List (ℕ × ℕ)))
    (dayEnds : List ((ℤ × ℤ) × List (ℕ × ℕ)))
    (h : List.lookup cfg.dayKey dayEnds = none) :
    sleepPredict ext cfg time accel fsIn wearIn dayEnds
      = Except.error "Day indices for (base, period) day window not found." := by
  unfold sleepPredict
  rw [h]

/-- C9 witness: an empty day-ends mapping makes predict raise. -/
theorem claimC9_witness :
    sleepPredict extNoTso cfgWearMin [] [] none none []
      = Except.error "Day indices for (base, period) day window not found." :=
  claimC9_missing_key extNoTso cfgWearMin [] [] none none [] rfl

set_option maxRecDepth 20000 in
/-- C4 counterexample: a day with enough hours but less wear time than
    the configured minimum is skipped, yet its row is present in the final
    results table (with day number and date set and every other field
    sentinel), contradicting the claimed total absence.  The 151-sample
    time array keeps the date read at index start + 50 in bounds, so the
    real code reaches the wear check and skips there. -/
theorem claimC4_counterexample :
    sleepPredict extNoTso cfgWearMin flatTime [] (some 20) none
        [(((12 : ℤ), (24 : ℤ)), [(0, 100)])]
      = Except.ok ⟨[sentinelRow extNoTso 0 0], some 20⟩
    ∧ ([sentinelRow extNoTso 0 0] : List SleepRow) ≠ [] := by
  constructor
  · with_unfolding_all rfl
  · simp

/-- C4 as amended: with a numeric goal frequency, a day rejected for too
    few hours is absent from the results table (its row is never
    appended); once past that check the date read 50 samples past the day
    start either raises an uncaught IndexError aborting the whole call (a
    time array too short) or fills the row, and a day then rejected for
    too little wear, or because no total-sleep-opportunity window is
    detected, keeps that appended row with day number and date set and
    every other field sentinel; the final table of predict consists
    exactly of the rows the day loop keeps this way. -/
theorem claimC4_day_rows (ext : SleepExternal) (cfg : SleepConfig)
    (g : ℚ) (time accel : List ℚ) (wear : List (ℕ × ℕ))
    (iday start stop : ℕ) :
    (((((stop : ℤ) - (start : ℤ) : ℤ) : ℚ)) / (3600 * g) < cfg.minDayHours →
        processDay ext cfg (some g) time accel wear iday (start, stop)
          = Except.ok none)
    ∧ (¬ (((((stop : ℤ) - (start : ℤ) : ℤ) : ℚ)) / (3600 * g)
            < cfg.minDayHours) →
        time[start + 50]? = none →
        processDay ext cfg (some g) time accel wear iday (start, stop)
          = Except.error
              "IndexError: index start + 50 is out of bounds for the time array")
    ∧ (∀ ts, ¬ (((((stop : ℤ) - (start : ℤ) : ℤ) : ℚ)) / (3600 * g)
            < cfg.minDayHours) →
        time[start + 50]? = some ts →
        ((((List.zipWith (fun a b => (a : ℤ) - (b : ℤ))
              (ext.dayWear wear start stop).2
              (ext.dayWear wear start stop).1).sum : ℤ) : ℚ)
            / (3600 * g) < cfg.minWearTime) →
        processDay ext cfg (some g) time accel wear iday (start, stop)
          = Except.ok (some (sentinelRow ext iday ts)))
    ∧ (∀ ts, ¬ (((((stop : ℤ) - (start : ℤ) : ℤ) : ℚ)) / (3600 * g)
            < cfg.minDayHours) →
        time[start + 50]? = some ts →
        ¬ (((((List.zipWith (fun a b => (a : ℤ) - (b : ℤ))
              (ext.dayWear wear start stop).2
              (ext.dayWear wear start stop).1).sum : ℤ) : ℚ)
            / (3600 * g)) < cfg.minWearTime) →
        ext.tso (some g) ((time.drop start).take (stop - start))
            ((accel.drop start).take (stop - start))
            (ext.dayWear wear start stop).1 (ext.dayWear wear start stop).2
          = none →
        processDay ext cfg (some g) time accel wear iday (start, stop)
          = Except.ok (some (sentinelRow ext iday ts)))
    ∧ (∀ (wearIn : Option (List (ℕ × ℕ))) (days : List (ℕ × ℕ)),
        sleepPredict ext cfg time accel (some 20) wearIn [(cfg.dayKey, days)]
          = withFs (some 20) (sleepDayLoop ext cfg (some 20) time accel
              (wearIn.getD [(0, time.length)]) days.enum)) := by
  refine ⟨?_, ?_, ?_, ?_, ?_⟩
  · intro h
    simp only [processDay]
    rw [if_pos (by simpa using h)]
  · intro h1 h2
    simp only [processDay]
    rw [if_neg (by simpa using h1), h2]
  · intro ts h1 h2 h3
    simp only [processDay]
    rw [if_neg (by simpa using h1), h2]
    simp only
    rw [if_pos (by simpa using h3)]
  · intro ts h1 h2 h3 h4
    simp only [processDay]
    rw [if_neg (by simpa using h1), h2]
    simp only
    rw [if_neg (by simpa using h3), h4]
  · intro wearIn days
    simp only [sleepPredict, List.lookup, beq_self_eq_true]
    rw [if_neg]
    rintro ⟨h20, -⟩
    exact h20 rfl

set_option maxRecDepth 20000 in
/-- C4 witness: the amended behavior at the counterexample input: the
    wear-skipped day keeps its sentinel row, with the date formatted from
    the timestamp at index 50. -/
theorem claimC4_witness :
    processDay extNoTso cfgWearMin (some 20) flatTime [] [] 0 (0, 100)
      = Except.ok (some (sentinelRow extNoTso 0 0)) :=
  (claimC4_day_rows extNoTso cfgWearMin 20 flatTime [] [] 0 0 100).2.2.1 0
    (by with_unfolding_all decide) (by with_unfolding_all rfl)
    (by with_unfolding_all decide)

set_option maxRecDepth 20000 in
/-- C10 counterexample: on the ramp timestamps the inferred fs is the mean
    difference 1, which differs from 20, so downsampling runs and the
    per-day TSO duration is computed with goal_fs = 20: the row holds
    1200/(20*60) = 1 minute instead of the 1200/(1*60) = 20 minutes the
    claim requires from the inferred value. -/
theorem claimC10_counterexample :
    meanDiff5000 rampTime = some 1
    ∧ rowsDurations (sleepPredict extTso cfgDownsample rampTime [] none none
        [(((12 : ℤ), (24 : ℤ)), [(0, 720000)])])
      ≠ [some ((1200 : ℚ) / (1 * 60))] := by
  constructor
  · with_unfolding_all decide
  · with_unfolding_all decide

/-- C10 as amended: with fs=None, the value used as fs is the mean of the
    consecutive differences of the first 5000 timestamps: it is the value
    compared against the 20 Hz downsampling target and the fs value
    returned in the updated kwargs; but when that value differs from 20
    and downsampling is enabled, the whole day loop (and so every per-day
    duration computation) runs with goal_fs = 20 on the downsampled data,
    and only otherwise with the inferred value on the original data. -/
theorem claimC10_fs_usage (ext : SleepExternal) (cfg : SleepConfig)
    (time accel : List ℚ) (wearIn : Option (List (ℕ × ℕ)))
    (dayEnds : List ((ℤ × ℤ) × List (ℕ × ℕ))) (days : List (ℕ × ℕ))
    (hlookup : List.lookup cfg.dayKey dayEnds = some days) :
    (∀ out, sleepPredict ext cfg time accel none wearIn dayEnds
        = Except.ok out → out.fs = meanDiff5000 time)
    ∧ (meanDiff5000 time ≠ some 20 → cfg.downsample = true →
        sleepPredict ext cfg time accel none wearIn dayEnds
          = withFs (meanDiff5000 time) (sleepDayLoop ext cfg (some 20)
              (ext.applyDownsample 20 time accel days
                (wearIn.getD [(0, time.length)])).1
              (ext.applyDownsample 20 time accel days
                (wearIn.getD [(0, time.length)])).2.1
              (ext.applyDownsample 20 time accel days
                (wearIn.getD [(0, time.length)])).2.2.2
              (ext.applyDownsample 20 time accel days
                (wearIn.getD [(0, time.length)])).2.2.1.enum))
    ∧ ((meanDiff5000 time = some 20 ∨ cfg.downsample = false) →
        sleepPredict ext cfg time accel none wearIn dayEnds
          = withFs (meanDiff5000 time) (sleepDayLoop ext cfg
              (meanDiff5000 time) time accel
              (wearIn.getD [(0, time.length)]) days.enum)) := by
  simp only [sleepPredict, hlookup]
  refine ⟨?_, ?_, ?_⟩
  · intro out h
    split at h
    · unfold withFs at h
      split at h
      · exact absurd h (by simp)
      · simp only [Except.ok.injEq] at h
        rw [← h]
    · unfold withFs at h
      split at h
      · exact absurd h (by simp)
      · simp only [Except.ok.injEq] at h
        rw [← h]
  · intro h20 hds
    rw [if_pos ⟨h20, hds⟩]
  · intro h
    rw [if_neg]
    rintro ⟨h20, hds⟩
    rcases h with h | h
    · exact h20 h
    · rw [h] at hds
      cases hds

set_option maxRecDepth 20000 in
/-- C10 witness: the amended claim at a concrete run: the inferred fs is
    1, the downsampled branch runs with goal_fs = 20, and the single day
    row carries a TSO duration of 1 minute while the returned fs is the
    inferred 1. -/
theorem claimC10_witness :
    sleepPredict extTso cfgDownsample rampTime [] none none
        [(((12 : ℤ), (24 : ℤ)), [(0, 720000)])]
      = Except.ok ⟨[SleepRow.mk (some 1) (some "2020-01-01") (some 5)
          (some "") (some 1) []], meanDiff5000 rampTime⟩ := by
  rw [(claimC10_fs_usage extTso cfgDownsample rampTime [] none
      [(((12 : ℤ), (24 : ℤ)), [(0, 720000)])] [(0, 720000)] rfl).2.1
    (by with_unfolding_all decide) rfl]
  with_unfolding_all rfl

end Skdh
